import Mathlib

/-!
Verification development for the line-breaking engine of the
embedded-text repository.

The embedding covers `src/rendering/line_iter.rs` (the
`LineElementIterator` state machine), the `LineCursor` primitives of
`src/rendering/cursor.rs` (`fits_in_line`, `space`, `next_tab_width`)
and `src/rendering/space_config.rs` (the `SpaceConfig` trait and
`UniformSpaceConfig`).

External collaborators are represented as follows.
The tokenizer is a list of tokens; cloning it for lookahead is value
copying.  The font metrics provider is a pair of constants
(character width and character spacing, as every advance in
`line_iter.rs` is written `F::CHARACTER_SIZE.width + F::CHARACTER_SPACING`
and `str_width_nocr` of a monospaced font is the per-character advance
times the character count).  The horizontal cursor used by
`line_iter.rs` (`advance`, `advance_unchecked`, `rewind`,
`carriage_return`, `x_in_line`) is modelled from the spec's data model
section together with the `LineCursor` operations present in
`src/rendering/cursor.rs`.  The ansi escape payloads are kept abstract:
`try_parse_sgr` lives outside the sources, so an escape token directly
carries its parse result.
-/

namespace EmbeddedText

/-- Ansi escape sequences as the line iterator distinguishes them.
`setGraphicsMode` carries the result of the external `try_parse_sgr`. -/
inductive AnsiSeq
  | setGraphicsMode (sgr : Option Nat)
  | cursorForward (n : Nat)
  | cursorBackward (n : Nat)
  | other
deriving DecidableEq

/-- Tokens produced by the parser (`Token` in `parser.rs`, shapes as used by
`line_iter.rs`).  `Word` carries its characters. -/
inductive Token
  | Word (w : List Char)
  | Whitespace (n : Nat)
  | Break (c : Option Char)
  | Tab
  | NewLine
  | CarriageReturn
  | ExtraCharacter (c : Char)
  | EscapeSequence (seq : AnsiSeq)
deriving DecidableEq

/-- Output elements of the line iterator (`RenderElement` in `line_iter.rs`). -/
inductive RenderElement
  | Space (width : Nat) (count : Nat)
  | PrintedCharacter (c : Char)
  | Sgr (code : Nat)
deriving DecidableEq

/-- Internal state of the line iterator (`State` in `line_iter.rs`). -/
inductive State
  | ProcessToken (t : Token)
  | Word (chars : List Char)
  | Done
deriving DecidableEq

/-- Font metrics provider: `F::CHARACTER_SIZE.width` and
`F::CHARACTER_SPACING` of the `MonoFont` used by `line_iter.rs`. -/
structure FontMetrics where
  charWidth : Nat
  charSpacing : Nat
deriving DecidableEq

/-- Advance width of one character:
`F::CHARACTER_SIZE.width + F::CHARACTER_SPACING`. -/
def FontMetrics.advanceWidth (F : FontMetrics) : Nat :=
  F.charWidth + F.charSpacing

/-- Width of a word for a monospaced font (`FontExt::str_width_nocr`). -/
def str_width_nocr (F : FontMetrics) (w : List Char) : Nat :=
  w.length * F.advanceWidth

/-- The non-breaking space code point (`SPEC_CHAR_NBSP` in `parser.rs`). -/
def SPEC_CHAR_NBSP : Char := Char.ofNat 0xA0

/-- Horizontal cursor within one line.  `width` and `position` follow
`LineCursor` of `src/rendering/cursor.rs`; the vertical fields `y` and
`lineSpacing` model `new_line` of the vertical cursor. -/
structure Cursor where
  width : Nat
  position : Nat
  y : Int
  lineSpacing : Int
deriving DecidableEq

/-- Empty space left in the line (`LineCursor::space`). -/
def Cursor.space (c : Cursor) : Nat := c.width - c.position

/-- Fit check (`LineCursor::fits_in_line`): the width must not exceed the
remaining space. -/
def Cursor.fits_in_line (c : Cursor) (w : Nat) : Bool := w ≤ c.space

/-- Checked advance, modelled from the spec: mutates and succeeds only if the
cursor stays in bounds; on failure the cursor is unchanged. -/
def Cursor.advance (c : Cursor) (w : Nat) : Option Cursor :=
  if c.fits_in_line w then some { c with position := c.position + w } else none

/-- Unchecked advance, used only after a fit has been validated. -/
def Cursor.advance_unchecked (c : Cursor) (w : Nat) : Cursor :=
  { c with position := c.position + w }

/-- Bounded backward move, modelled from the spec: succeeds only if the cursor
stays at or after the line start. -/
def Cursor.rewind (c : Cursor) (w : Nat) : Option Cursor :=
  if w ≤ c.position then some { c with position := c.position - w } else none

/-- Return to the start of the line (`LineCursor::carriage_return`). -/
def Cursor.carriage_return (c : Cursor) : Cursor := { c with position := 0 }

/-- Start a new line vertically (`Cursor::new_line`). -/
def Cursor.new_line (c : Cursor) : Cursor := { c with y := c.y + c.lineSpacing }

/-- Horizontal offset within the line (`Cursor::x_in_line`). -/
def Cursor.x_in_line (c : Cursor) : Nat := c.position

/-- Distance to the next tab stop, from `LineCursor::next_tab_width` in
`src/rendering/cursor.rs`; `TabSize::next_width` is not under the sources and
is modelled by the same formula. -/
def next_tab_width (position tab_width : Nat) : Nat :=
  (position / tab_width + 1) * tab_width - position

/-- Whitespace width policy (`SpaceConfig` trait): a peek that does not
advance and a consume that returns the committed width together with the new
internal state of type `σ`. -/
structure SpaceConfig (σ : Type) where
  peek_next_width : σ → Nat → Nat
  consume : σ → Nat → Nat × σ

/-- State of the uniform strategy: a fixed space width. -/
structure UniformSpaceConfig where
  space_width : Nat
deriving DecidableEq

/-- The uniform strategy (`impl SpaceConfig for UniformSpaceConfig`):
`peek_next_width n = n * space_width` and `consume` returns the peeked width
without changing the state. -/
def uniformConfig : SpaceConfig UniformSpaceConfig where
  peek_next_width := fun c n => n * c.space_width
  consume := fun c n => (n * c.space_width, c)

/-- Alignment policy flags (`HorizontalTextAlignment` associated constants). -/
structure HorizontalTextAlignment where
  STARTING_SPACES : Bool
  ENDING_SPACES : Bool
deriving DecidableEq

/-- Iterator state (`LineElementIterator` fields; the parser is the remaining
token list, the carried token slot is owned by the iterator). -/
structure Iter (σ : Type) where
  parser : List Token
  current_token : State
  config : σ
  cursor : Cursor
  first_word : Bool
  carried_token : Option Token
  tab_width : Nat
deriving DecidableEq

/-- Result of one pass through the body of the `loop` in
`LineElementIterator::next`: an element is returned, the loop continues with
a new state, or the iterator is finished. -/
inductive StepOut (σ : Type)
  | emit (e : RenderElement) (it : Iter σ)
  | cont (it : Iter σ)
  | halt
deriving DecidableEq

/-- Fetch the next token from the parser
(`LineElementIterator::next_token`). -/
def next_token {σ : Type} (it : Iter σ) : Iter σ :=
  match it.parser with
  | [] => { it with current_token := State.Done }
  | t :: ts => { it with parser := ts, current_token := State.ProcessToken t }

/-- End the iteration without carrying a token
(`LineElementIterator::finish_end_of_string`). -/
def finish_end_of_string {σ : Type} (it : Iter σ) : Iter σ :=
  { it with current_token := State.Done }

/-- Finish the line carrying token `t` (`LineElementIterator::finish`). -/
def finish {σ : Type} (it : Iter σ) (t : Token) : Iter σ :=
  match t with
  | Token.NewLine =>
    { it with cursor := (it.cursor.new_line).carriage_return,
              carried_token := some Token.NewLine,
              current_token := State.Done }
  | Token.CarriageReturn =>
    { it with cursor := it.cursor.carriage_return,
              carried_token := some Token.CarriageReturn,
              current_token := State.Done }
  | c =>
    { it with cursor := (it.cursor.new_line).carriage_return,
              carried_token := some c,
              current_token := State.Done }

/-- Finish the line because of a width-forced wrap
(`LineElementIterator::finish_wrapped`). -/
def finish_wrapped {σ : Type} (it : Iter σ) : Iter σ :=
  finish it (Token.Break none)

/-- Accumulator loop of `LineElementIterator::next_word_width`, scanning a
clone of the parser. -/
def next_word_width_aux (F : FontMetrics) : List Token → Option Nat → Option Nat
  | [], acc => acc
  | Token.Word w :: ts, acc =>
      next_word_width_aux F ts (some (acc.getD 0 + str_width_nocr F w))
  | Token.Break (some _) :: _, acc => some (acc.getD 0 + F.advanceWidth)
  | Token.EscapeSequence _ :: ts, acc => next_word_width_aux F ts acc
  | _ :: _, acc => acc

/-- Lookahead width of the upcoming word (`next_word_width`).  It is a pure
function of the token list: the live parser and the cursor are untouched by
construction. -/
def next_word_width (F : FontMetrics) (ts : List Token) : Option Nat :=
  next_word_width_aux F ts none

/-- Loop body of `count_widest_space_seq`: starting from `k` rendered spaces
with `budget` spaces still allowed, increment while the next prefix width is
strictly below the available space. -/
def count_widest_space_seq_go (peek : Nat → Nat) (available : Nat) :
    Nat → Nat → Nat
  | k, 0 => k
  | k, budget + 1 =>
      if peek (k + 1) < available then
        count_widest_space_seq_go peek available (k + 1) budget
      else k

/-- Linear forward scan for the number of spaces to render
(`LineElementIterator::count_widest_space_seq`). -/
def count_widest_space_seq (peek : Nat → Nat) (available n : Nat) : Nat :=
  count_widest_space_seq_go peek available 0 n

/-- Body of the rendering part of the `Token::Whitespace` arm, after the
shadowing rebinding of `n`: render as many spaces as the scan allows, commit
them, and carry the remainder. -/
def whitespace_render_core {σ : Type} (SP : SpaceConfig σ) (it : Iter σ)
    (n : Nat) : StepOut σ :=
  if 0 < count_widest_space_seq (SP.peek_next_width it.config) it.cursor.space n
  then
    let k := count_widest_space_seq (SP.peek_next_width it.config)
      it.cursor.space n
    let space_width := (SP.consume it.config k).1
    let it2 : Iter σ :=
      { it with config := (SP.consume it.config k).2,
                cursor := it.cursor.advance_unchecked space_width }
    if n - k = 0 then
      StepOut.emit (RenderElement.Space space_width k) (next_token it2)
    else
      StepOut.emit (RenderElement.Space space_width k)
        (finish it2 (Token.Whitespace (n - k)))
  else if 1 < n then
    StepOut.cont (finish it (Token.Whitespace (n - 1)))
  else
    StepOut.cont (finish_wrapped it)

/-- Rendering part of the `Token::Whitespace` arm; when the decision predicted
a wrap, one space is reserved to force the break (the `saturating_sub`
shadowing `n`). -/
def whitespace_render {σ : Type} (SP : SpaceConfig σ) (it : Iter σ)
    (n0 : Nat) (would_wrap : Bool) : StepOut σ :=
  whitespace_render_core SP it (if would_wrap then n0 - 1 else n0)

/-- Failure path of the per-character word emission: carry the remaining part
of the word if the line already has content, otherwise drop the token. -/
def word_fail {σ : Type} (it : Iter σ) (c : Char) (rest : List Char) :
    StepOut σ :=
  if 0 < it.cursor.x_in_line then
    StepOut.cont (finish it (Token.Word (c :: rest)))
  else
    StepOut.cont (finish_end_of_string it)

/-- The `State::ProcessToken` arm of `LineElementIterator::next`. -/
def process_token {σ : Type} (F : FontMetrics) (A : HorizontalTextAlignment)
    (SP : SpaceConfig σ) (it : Iter σ) (token : Token) : StepOut σ :=
  match token with
  | Token.Whitespace n =>
      if it.first_word then
        if A.STARTING_SPACES then
          whitespace_render SP { it with first_word := false } n false
        else
          StepOut.cont (next_token it)
      else
        match next_word_width F it.parser with
        | some word_width =>
            let space_width := SP.peek_next_width it.config n
            let fits := it.cursor.fits_in_line (space_width + word_width)
            if A.ENDING_SPACES || fits then
              whitespace_render SP it n (!fits)
            else if !fits then
              StepOut.cont (finish_wrapped it)
            else
              StepOut.cont (next_token it)
        | none =>
            if A.ENDING_SPACES then
              whitespace_render SP it n false
            else
              StepOut.cont (next_token it)
  | Token.Break c =>
      let fits :=
        match next_word_width F it.parser with
        | some word_width => it.cursor.fits_in_line word_width
        | none => true
      if fits then
        StepOut.cont (next_token it)
      else
        match c with
        | some ch =>
            match it.cursor.advance F.advanceWidth with
            | some cur =>
                StepOut.emit (RenderElement.PrintedCharacter ch)
                  (finish_wrapped { it with cursor := cur })
            | none =>
                StepOut.cont (finish it (Token.ExtraCharacter ch))
        | none => StepOut.cont (finish_wrapped it)
  | Token.ExtraCharacter ch =>
      match it.cursor.advance F.advanceWidth with
      | some cur =>
          StepOut.emit (RenderElement.PrintedCharacter ch)
            (next_token { it with cursor := cur })
      | none => StepOut.cont (finish_end_of_string it)
  | Token.Word w =>
      if it.first_word then
        StepOut.cont { it with first_word := false, current_token := State.Word w }
      else if it.cursor.fits_in_line (str_width_nocr F w) then
        StepOut.cont { it with current_token := State.Word w }
      else
        StepOut.cont (finish it (Token.Word w))
  | Token.Tab =>
      let sp_width := next_tab_width it.cursor.x_in_line it.tab_width
      match it.cursor.advance sp_width with
      | some cur =>
          StepOut.emit (RenderElement.Space sp_width 0)
            (next_token { it with cursor := cur })
      | none =>
          StepOut.emit (RenderElement.Space it.cursor.space 0)
            (finish_wrapped it)
  | Token.EscapeSequence seq =>
      let it2 := next_token it
      match seq with
      | AnsiSeq.setGraphicsMode sgr? =>
          match sgr? with
          | some code => StepOut.emit (RenderElement.Sgr code) it2
          | none => StepOut.cont it2
      | AnsiSeq.cursorForward n =>
          let delta := n * F.charWidth + F.charSpacing
          match it2.cursor.advance delta with
          | some cur => StepOut.emit (RenderElement.Space delta 0)
              { it2 with cursor := cur }
          | none =>
              let sp := it2.cursor.space
              StepOut.emit (RenderElement.Space sp 0)
                { it2 with cursor := it2.cursor.advance_unchecked sp }
      | AnsiSeq.cursorBackward n =>
          let delta := n * F.charWidth + F.charSpacing
          match it2.cursor.rewind delta with
          | some cur => StepOut.cont { it2 with cursor := cur }
          | none => StepOut.cont { it2 with cursor := it2.cursor.carriage_return }
      | AnsiSeq.other => StepOut.cont it2
  | Token.NewLine => StepOut.cont (finish it Token.NewLine)
  | Token.CarriageReturn => StepOut.cont (finish it Token.CarriageReturn)

/-- One pass through the body of the `loop` in
`LineElementIterator::next`. -/
def step {σ : Type} (F : FontMetrics) (A : HorizontalTextAlignment)
    (SP : SpaceConfig σ) (it : Iter σ) : StepOut σ :=
  match it.current_token with
  | State.Done => StepOut.halt
  | State.ProcessToken token => process_token F A SP it token
  | State.Word chars =>
      match chars with
      | [] => StepOut.cont (next_token it)
      | c :: rest =>
          if c = SPEC_CHAR_NBSP then
            let sp_width := SP.peek_next_width it.config 1
            match it.cursor.advance sp_width with
            | some cur =>
                StepOut.emit (RenderElement.Space sp_width 1)
                  { it with cursor := cur,
                            config := (SP.consume it.config 1).2,
                            current_token := State.Word rest }
            | none => word_fail it c rest
          else
            match it.cursor.advance F.advanceWidth with
            | some cur =>
                StepOut.emit (RenderElement.PrintedCharacter c)
                  { it with cursor := cur, current_token := State.Word rest }
            | none => word_fail it c rest

/-- Constructor (`LineElementIterator::new`): the carried token is taken and
dropped when it is a `NewLine`, `CarriageReturn` or `Break(None)`; otherwise
it becomes the first processed token.  When it was dropped or absent the
first token comes from the parser. -/
def LineElementIterator.new {σ : Type} (parser : List Token) (cursor : Cursor)
    (config : σ) (carried_token : Option Token) (tab_width : Nat) : Iter σ :=
  let keep : Option Token :=
    match carried_token with
    | none => none
    | some t =>
        if t = Token.NewLine ∨ t = Token.CarriageReturn ∨ t = Token.Break none
        then none else some t
  match keep with
  | some t =>
      { parser := parser, current_token := State.ProcessToken t,
        config := config, cursor := cursor, first_word := true,
        carried_token := none, tab_width := tab_width }
  | none =>
      match parser with
      | [] =>
          { parser := [], current_token := State.Done, config := config,
            cursor := cursor, first_word := true, carried_token := none,
            tab_width := tab_width }
      | t :: ts =>
          { parser := ts, current_token := State.ProcessToken t,
            config := config, cursor := cursor, first_word := true,
            carried_token := none, tab_width := tab_width }

/-- Run the iterator with the given fuel, collecting the emitted elements;
`none` means the fuel ran out before `State::Done` was reached. -/
def runFuel {σ : Type} (F : FontMetrics) (A : HorizontalTextAlignment)
    (SP : SpaceConfig σ) : Nat → Iter σ → Option (List RenderElement × Iter σ)
  | 0, _ => none
  | fuel + 1, it =>
      match step F A SP it with
      | StepOut.halt => some ([], it)
      | StepOut.cont it2 => runFuel F A SP fuel it2
      | StepOut.emit e it2 =>
          match runFuel F A SP fuel it2 with
          | none => none
          | some (l, itf) => some (e :: l, itf)

/-- Width contributed by an element: the stored width of a space block and
the character advance of a printed character. -/
def elemWidth (F : FontMetrics) : RenderElement → Nat
  | RenderElement.Space w _ => w
  | RenderElement.PrintedCharacter _ => F.advanceWidth
  | RenderElement.Sgr _ => 0

/-- Total committed width of a list of render elements. -/
def sumWidths (F : FontMetrics) (l : List RenderElement) : Nat :=
  (l.map (elemWidth F)).sum

/-- Size contribution of a token to the termination measure: only words carry
extra work (their characters). -/
def tokSize : Token → Nat
  | Token.Word w => w.length
  | _ => 0

/-- Size of the iterator state for the termination measure. -/
def stateSize : State → Nat
  | State.ProcessToken t => 2 + tokSize t
  | State.Word cs => 1 + cs.length
  | State.Done => 0

/-- Weight of the unconsumed token stream for the termination measure. -/
def parserWeight : List Token → Nat
  | [] => 0
  | t :: ts => 3 + tokSize t + parserWeight ts

/-- Termination measure of the iterator: every pass through the loop body of
`next` that does not halt strictly decreases it. -/
def iterMeasure {σ : Type} (it : Iter σ) : Nat :=
  parserWeight it.parser + stateSize it.current_token

/-- The step outcome with respect to the starting iterator `it`: it halts
only from the `Done` state, and otherwise strictly decreases the measure. -/
def stepDecreases {σ : Type} : StepOut σ → Iter σ → Prop
  | StepOut.halt, it => it.current_token = State.Done
  | StepOut.emit _ it2, it => iterMeasure it2 < iterMeasure it
  | StepOut.cont it2, it => iterMeasure it2 < iterMeasure it

theorem iterMeasure_next_token_le {σ : Type} (it : Iter σ) :
    iterMeasure (next_token it) ≤ parserWeight it.parser := by
  cases h : it.parser with
  | nil => simp [next_token, h, iterMeasure, stateSize]
  | cons t ts =>
      simp [next_token, h, iterMeasure, stateSize, parserWeight]
      omega

theorem iterMeasure_next_token_lt {σ : Type} (it : Iter σ)
    (h : 0 < stateSize it.current_token) :
    iterMeasure (next_token it) < iterMeasure it := by
  have h1 := iterMeasure_next_token_le it
  unfold iterMeasure at h1 ⊢
  omega

theorem iterMeasure_finish {σ : Type} (it : Iter σ) (t : Token) :
    iterMeasure (finish it t) = parserWeight it.parser := by
  cases t <;> simp [finish, iterMeasure, stateSize]

theorem iterMeasure_finish_lt {σ : Type} (it : Iter σ) (t : Token)
    (h : 0 < stateSize it.current_token) :
    iterMeasure (finish it t) < iterMeasure it := by
  rw [iterMeasure_finish]
  unfold iterMeasure
  omega

theorem iterMeasure_finish_end {σ : Type} (it : Iter σ) :
    iterMeasure (finish_end_of_string it) = parserWeight it.parser := by
  simp [finish_end_of_string, iterMeasure, stateSize]

theorem parserWeight_lt_iterMeasure {σ : Type} (it : Iter σ)
    (h : 0 < stateSize it.current_token) :
    parserWeight it.parser < iterMeasure it := by
  unfold iterMeasure
  omega

theorem word_fail_decreases {σ : Type} (it it0 : Iter σ) (c : Char)
    (rest : List Char) (hp : it.parser = it0.parser)
    (h : 0 < stateSize it0.current_token) :
    stepDecreases (word_fail it c rest) it0 := by
  have h2 : parserWeight it0.parser < iterMeasure it0 :=
    parserWeight_lt_iterMeasure it0 h
  unfold word_fail
  split
  · simp only [stepDecreases]
    rw [iterMeasure_finish, hp]
    exact h2
  · simp only [stepDecreases]
    rw [iterMeasure_finish_end, hp]
    exact h2

theorem whitespace_render_core_decreases {σ : Type} (SP : SpaceConfig σ)
    (it it0 : Iter σ) (n : Nat) (hp : it.parser = it0.parser)
    (h : 0 < stateSize it0.current_token) :
    stepDecreases (whitespace_render_core SP it n) it0 := by
  have h2 : parserWeight it0.parser < iterMeasure it0 :=
    parserWeight_lt_iterMeasure it0 h
  unfold whitespace_render_core
  split
  · dsimp only
    split
    · simp only [stepDecreases]
      refine lt_of_le_of_lt (iterMeasure_next_token_le _) ?_
      show parserWeight it.parser < iterMeasure it0
      rw [hp]
      exact h2
    · simp only [stepDecreases]
      rw [iterMeasure_finish]
      show parserWeight it.parser < iterMeasure it0
      rw [hp]
      exact h2
  · split
    · simp only [stepDecreases]
      rw [iterMeasure_finish, hp]
      exact h2
    · simp only [stepDecreases, finish_wrapped]
      rw [iterMeasure_finish, hp]
      exact h2

theorem whitespace_render_decreases {σ : Type} (SP : SpaceConfig σ)
    (it it0 : Iter σ) (n0 : Nat) (ww : Bool) (hp : it.parser = it0.parser)
    (h : 0 < stateSize it0.current_token) :
    stepDecreases (whitespace_render SP it n0 ww) it0 :=
  whitespace_render_core_decreases SP it it0 _ hp h

theorem iterMeasure_set_cursor {σ : Type} (it : Iter σ) (c : Cursor) :
    iterMeasure { it with cursor := c } = iterMeasure it := rfl

theorem step_decreases {σ : Type} (F : FontMetrics)
    (A : HorizontalTextAlignment) (SP : SpaceConfig σ) (it : Iter σ) :
    stepDecreases (step F A SP it) it := by
  obtain ⟨p, st, cfg, cur, fw, ct, tw⟩ := it
  cases st with
  | Done => simp [step, stepDecreases]
  | Word chars =>
      have hs : 0 < stateSize (State.Word chars) := by
        simp only [stateSize]
        omega
      cases chars with
      | nil =>
          simp only [step, stepDecreases]
          exact iterMeasure_next_token_lt _ hs
      | cons c rest =>
          simp only [step]
          split
          · cases hadv : cur.advance (SP.peek_next_width cfg 1) with
            | some cur2 =>
                simp only [hadv, stepDecreases]
                simp [iterMeasure, stateSize]
            | none =>
                simp only [hadv]
                exact word_fail_decreases _ _ c rest rfl hs
          · cases hadv : cur.advance F.advanceWidth with
            | some cur2 =>
                simp only [hadv, stepDecreases]
                simp [iterMeasure, stateSize]
            | none =>
                simp only [hadv]
                exact word_fail_decreases _ _ c rest rfl hs
  | ProcessToken tok =>
      have hs : 0 < stateSize (State.ProcessToken tok) := by
        simp only [stateSize]
        omega
      cases tok with
      | Whitespace n =>
          simp only [step, process_token]
          split
          · split
            · exact whitespace_render_decreases SP _ _ n false rfl hs
            · simp only [stepDecreases]
              exact iterMeasure_next_token_lt _ hs
          · cases hww : next_word_width F p with
            | some w0 =>
                dsimp only
                split
                · exact whitespace_render_decreases SP _ _ n _ rfl hs
                · split
                  · simp only [stepDecreases, finish_wrapped]
                    rw [iterMeasure_finish]
                    exact parserWeight_lt_iterMeasure _ hs
                  · simp only [stepDecreases]
                    exact iterMeasure_next_token_lt _ hs
            | none =>
                dsimp only
                split
                · exact whitespace_render_decreases SP _ _ n false rfl hs
                · simp only [stepDecreases]
                  exact iterMeasure_next_token_lt _ hs
      | Break c =>
          simp only [step, process_token]
          split
          · simp only [stepDecreases]
            exact iterMeasure_next_token_lt _ hs
          · cases c with
            | some ch =>
                cases hadv : cur.advance F.advanceWidth with
                | some cur2 =>
                    simp only [hadv, stepDecreases, finish_wrapped]
                    rw [iterMeasure_finish]
                    exact parserWeight_lt_iterMeasure _ hs
                | none =>
                    simp only [hadv, stepDecreases]
                    rw [iterMeasure_finish]
                    exact parserWeight_lt_iterMeasure _ hs
            | none =>
                simp only [stepDecreases, finish_wrapped]
                rw [iterMeasure_finish]
                exact parserWeight_lt_iterMeasure _ hs
      | ExtraCharacter ch =>
          simp only [step, process_token]
          cases hadv : cur.advance F.advanceWidth with
          | some cur2 =>
              simp only [hadv, stepDecreases]
              exact lt_of_le_of_lt (iterMeasure_next_token_le _)
                (parserWeight_lt_iterMeasure _ hs)
          | none =>
              simp only [hadv, stepDecreases]
              rw [iterMeasure_finish_end]
              exact parserWeight_lt_iterMeasure _ hs
      | Word w =>
          simp only [step, process_token]
          split
          · simp only [stepDecreases]
            simp [iterMeasure, stateSize, tokSize]
          · split
            · simp only [stepDecreases]
              simp [iterMeasure, stateSize, tokSize]
            · simp only [stepDecreases]
              rw [iterMeasure_finish]
              exact parserWeight_lt_iterMeasure _ hs
      | Tab =>
          simp only [step, process_token]
          cases hadv : cur.advance (next_tab_width cur.x_in_line tw) with
          | some cur2 =>
              simp only [hadv, stepDecreases]
              exact lt_of_le_of_lt (iterMeasure_next_token_le _)
                (parserWeight_lt_iterMeasure _ hs)
          | none =>
              simp only [hadv, stepDecreases, finish_wrapped]
              rw [iterMeasure_finish]
              exact parserWeight_lt_iterMeasure _ hs
      | EscapeSequence seq =>
          have h2 : iterMeasure (next_token (Iter.mk p
              (State.ProcessToken (Token.EscapeSequence seq)) cfg cur fw ct
              tw)) < iterMeasure (Iter.mk p
              (State.ProcessToken (Token.EscapeSequence seq)) cfg cur fw ct
              tw) :=
            iterMeasure_next_token_lt _ hs
          simp only [step, process_token]
          cases seq with
          | setGraphicsMode s =>
              cases s with
              | none => simpa only [stepDecreases] using h2
              | some code => simpa only [stepDecreases] using h2
          | cursorForward m =>
              dsimp only
              cases hadv : (next_token (Iter.mk p
                  (State.ProcessToken (Token.EscapeSequence
                    (AnsiSeq.cursorForward m))) cfg cur fw ct
                  tw)).cursor.advance (m * F.charWidth + F.charSpacing) with
              | some cur2 =>
                  simp only [hadv, stepDecreases]
                  rw [iterMeasure_set_cursor]
                  exact h2
              | none =>
                  simp only [hadv, stepDecreases]
                  rw [iterMeasure_set_cursor]
                  exact h2
          | cursorBackward m =>
              dsimp only
              cases hrew : (next_token (Iter.mk p
                  (State.ProcessToken (Token.EscapeSequence
                    (AnsiSeq.cursorBackward m))) cfg cur fw ct
                  tw)).cursor.rewind (m * F.charWidth + F.charSpacing) with
              | some cur2 =>
                  simp only [hrew, stepDecreases]
                  rw [iterMeasure_set_cursor]
                  exact h2
              | none =>
                  simp only [hrew, stepDecreases]
                  rw [iterMeasure_set_cursor]
                  exact h2
          | other => simpa only [stepDecreases] using h2
      | NewLine =>
          simp only [step, process_token, stepDecreases]
          rw [iterMeasure_finish]
          exact parserWeight_lt_iterMeasure _ hs
      | CarriageReturn =>
          simp only [step, process_token, stepDecreases]
          rw [iterMeasure_finish]
          exact parserWeight_lt_iterMeasure _ hs

theorem runFuel_isSome {σ : Type} (F : FontMetrics)
    (A : HorizontalTextAlignment) (SP : SpaceConfig σ) :
    ∀ (fuel : Nat) (it : Iter σ), iterMeasure it < fuel →
      (runFuel F A SP fuel it).isSome = true := by
  intro fuel
  induction fuel with
  | zero => intro it h; omega
  | succ fuel ih =>
      intro it h
      have hd := step_decreases F A SP it
      unfold runFuel
      cases hstep : step F A SP it with
      | halt => simp
      | cont it2 =>
          rw [hstep] at hd
          simp only [stepDecreases] at hd
          exact ih it2 (by omega)
      | emit e it2 =>
          rw [hstep] at hd
          simp only [stepDecreases] at hd
          have h2 := ih it2 (by omega)
          cases hr : runFuel F A SP fuel it2 with
          | none => rw [hr] at h2; simp at h2
          | some pr =>
              cases pr with
              | mk l itf => simp [hr]

theorem runFuel_final_done {σ : Type} (F : FontMetrics)
    (A : HorizontalTextAlignment) (SP : SpaceConfig σ) :
    ∀ (fuel : Nat) (it : Iter σ) (l : List RenderElement) (itf : Iter σ),
      runFuel F A SP fuel it = some (l, itf) →
      itf.current_token = State.Done := by
  intro fuel
  induction fuel with
  | zero => intro it l itf h; simp [runFuel] at h
  | succ fuel ih =>
      intro it l itf h
      have hd := step_decreases F A SP it
      unfold runFuel at h
      cases hstep : step F A SP it with
      | halt =>
          rw [hstep] at h hd
          simp only [stepDecreases] at hd
          simp only [Option.some.injEq, Prod.mk.injEq] at h
          rw [← h.2]
          exact hd
      | cont it2 =>
          rw [hstep] at h
          exact ih it2 l itf h
      | emit e it2 =>
          rw [hstep] at h
          dsimp only at h
          cases hr : runFuel F A SP fuel it2 with
          | none => rw [hr] at h; simp at h
          | some pr =>
              cases pr with
              | mk l2 itf2 =>
                  rw [hr] at h
                  simp only [Option.some.injEq, Prod.mk.injEq] at h
                  rw [← h.2]
                  exact ih it2 l2 itf2 hr

/-- C1: for every input token stream, every alignment policy, every
`SpaceConfig` (any internal state type with any peek and consume functions),
every cursor (hence every line width, including widths smaller than a single
glyph), every carried token and tab width, the loop of
`LineElementIterator::next` reaches `State::Done` within a number of passes
bounded by the iterator's measure: running with that much fuel returns the
complete, finite list of render elements and a final iterator in the `Done`
state. -/
theorem lineIter_terminates {σ : Type} (F : FontMetrics)
    (A : HorizontalTextAlignment) (SP : SpaceConfig σ) (parser : List Token)
    (cursor : Cursor) (config : σ) (carried : Option Token) (tab_w : Nat) :
    ((runFuel F A SP
        (iterMeasure (LineElementIterator.new parser cursor config carried
          tab_w) + 1)
        (LineElementIterator.new parser cursor config carried
          tab_w)).isSome = true) ∧
    (∀ (l : List RenderElement) (itf : Iter σ) (fuel : Nat),
      runFuel F A SP fuel
          (LineElementIterator.new parser cursor config carried tab_w) =
        some (l, itf) →
      itf.current_token = State.Done) := by
  constructor
  · exact runFuel_isSome F A SP _ _ (Nat.lt_succ_self _)
  · intro l itf fuel h
    exact runFuel_final_done F A SP fuel _ l itf h

/-- C9: for the uniform space configuration, `peek_next_width n` is `n` times
the configured space width, `consume n` returns exactly the value
`peek_next_width n` yields (peek predicts consume), the internal state is
unchanged by `consume`, and therefore `peek_next_width` returns the same
value before and after any `consume`. -/
theorem uniform_space_config_spec :
    ∀ (c : UniformSpaceConfig) (n m : Nat),
      uniformConfig.peek_next_width c n = n * c.space_width ∧
      uniformConfig.consume c n = (uniformConfig.peek_next_width c n, c) ∧
      uniformConfig.peek_next_width (uniformConfig.consume c m).2 n =
        uniformConfig.peek_next_width c n := by
  intro c n m
  refine ⟨rfl, rfl, rfl⟩

/-- C10: at construction, a carried `NewLine`, `CarriageReturn` or
`Break(None)` is discarded and the first processed token is taken from the
parser instead (the three discarded cases construct the same iterator as an
absent carried token); any other carried token becomes the first processed
token without touching the parser; and the carried-token slot of the new
iterator is always empty. -/
theorem lineIter_new_carried {σ : Type} (parser : List Token)
    (cursor : Cursor) (config : σ) (tab_w : Nat) :
    (LineElementIterator.new parser cursor config (some Token.NewLine) tab_w =
      LineElementIterator.new parser cursor config none tab_w) ∧
    (LineElementIterator.new parser cursor config (some Token.CarriageReturn)
        tab_w =
      LineElementIterator.new parser cursor config none tab_w) ∧
    (LineElementIterator.new parser cursor config (some (Token.Break none))
        tab_w =
      LineElementIterator.new parser cursor config none tab_w) ∧
    (∀ t : Token, t ≠ Token.NewLine → t ≠ Token.CarriageReturn →
      t ≠ Token.Break none →
      (LineElementIterator.new parser cursor config (some t)
          tab_w).current_token = State.ProcessToken t ∧
      (LineElementIterator.new parser cursor config (some t) tab_w).parser =
        parser) ∧
    (∀ ct : Option Token,
      (LineElementIterator.new parser cursor config ct
        tab_w).carried_token = none) := by
  refine ⟨?_, ?_, ?_, ?_, ?_⟩
  · simp [LineElementIterator.new]
  · simp [LineElementIterator.new]
  · simp [LineElementIterator.new]
  · intro t h1 h2 h3
    have hf : ¬ (t = Token.NewLine ∨ t = Token.CarriageReturn ∨
        t = Token.Break none) := by
      rintro (h | h | h) <;> contradiction
    simp [LineElementIterator.new, hf]
  · intro ct
    cases ct with
    | none =>
        cases parser <;> simp [LineElementIterator.new]
    | some t =>
        by_cases hf : t = Token.NewLine ∨ t = Token.CarriageReturn ∨
          t = Token.Break none
        · simp only [LineElementIterator.new, if_pos hf]
          cases parser <;> rfl
        · simp only [LineElementIterator.new, if_neg hf]

theorem next_word_width_aux_some (F : FontMetrics) :
    ∀ (ts : List Token) (a : Nat),
      next_word_width_aux F ts (some a) =
        some (a + (next_word_width_aux F ts none).getD 0) := by
  intro ts
  induction ts with
  | nil => intro a; simp [next_word_width_aux]
  | cons t ts ih =>
      intro a
      cases t with
      | Word w =>
          simp only [next_word_width_aux, Option.getD_some, Option.getD_none,
            ih, Option.some.injEq]
          omega
      | Whitespace n => simp [next_word_width_aux]
      | Break c =>
          cases c with
          | none => simp [next_word_width_aux]
          | some ch => simp [next_word_width_aux]
      | Tab => simp [next_word_width_aux]
      | NewLine => simp [next_word_width_aux]
      | CarriageReturn => simp [next_word_width_aux]
      | ExtraCharacter ch => simp [next_word_width_aux]
      | EscapeSequence seq => simp only [next_word_width_aux, ih]

/-- C8: the lookahead `next_word_width` accumulates the widths of contiguous
upcoming `Word` tokens, stops at the first `Break` carrying a fallback
character while adding that character's advance width, stops with no
contribution at every other token, and skips escape sequences transparently;
and it is a pure function of the (cloned) token list: consulting it leaves
the live parser and cursor unchanged, as witnessed by the `Break` arm of the
iterator, which after the lookahead consumes exactly its own token. -/
theorem next_word_width_spec (σ : Type) (F : FontMetrics) :
    (next_word_width F [] = none) ∧
    (∀ (w : List Char) (ts : List Token),
      next_word_width F (Token.Word w :: ts) =
        some (str_width_nocr F w + (next_word_width F ts).getD 0)) ∧
    (∀ (ch : Char) (ts : List Token),
      next_word_width F (Token.Break (some ch) :: ts) =
        some F.advanceWidth) ∧
    (∀ (seq : AnsiSeq) (ts : List Token),
      next_word_width F (Token.EscapeSequence seq :: ts) =
        next_word_width F ts) ∧
    (∀ (n : Nat) (ts : List Token),
      next_word_width F (Token.Whitespace n :: ts) = none) ∧
    (∀ ts : List Token, next_word_width F (Token.Break none :: ts) = none) ∧
    (∀ ts : List Token, next_word_width F (Token.Tab :: ts) = none) ∧
    (∀ ts : List Token, next_word_width F (Token.NewLine :: ts) = none) ∧
    (∀ ts : List Token,
      next_word_width F (Token.CarriageReturn :: ts) = none) ∧
    (∀ (ch : Char) (ts : List Token),
      next_word_width F (Token.ExtraCharacter ch :: ts) = none) ∧
    (∀ (A : HorizontalTextAlignment) (SP : SpaceConfig σ) (it : Iter σ)
      (c : Option Char) (w0 : Nat),
      it.current_token = State.ProcessToken (Token.Break c) →
      next_word_width F it.parser = some w0 →
      it.cursor.fits_in_line w0 = true →
      step F A SP it = StepOut.cont (next_token it)) := by
  refine ⟨rfl, ?_, ?_, ?_, ?_, ?_, ?_, ?_, ?_, ?_, ?_⟩
  · intro w ts
    simp only [next_word_width, next_word_width_aux,
      next_word_width_aux_some, Option.getD_none, Option.some.injEq]
    omega
  · intro ch ts
    simp [next_word_width, next_word_width_aux]
  · intro seq ts
    simp only [next_word_width, next_word_width_aux]
  · intro n ts
    simp [next_word_width, next_word_width_aux]
  · intro ts
    simp [next_word_width, next_word_width_aux]
  · intro ts
    simp [next_word_width, next_word_width_aux]
  · intro ts
    simp [next_word_width, next_word_width_aux]
  · intro ts
    simp [next_word_width, next_word_width_aux]
  · intro ch ts
    simp [next_word_width, next_word_width_aux]
  · intro A SP it c w0 hst hww hfits
    obtain ⟨p, st, cfg, cur, fw, ct, tw⟩ := it
    simp only at hst hww hfits
    subst hst
    simp only [step, process_token, hww, hfits, if_pos]

/-- Iterator whose current state is about to process token `t`. -/
def procIter {σ : Type} (p : List Token) (cfg : σ) (cur : Cursor) (fw : Bool)
    (ct : Option Token) (tw : Nat) (t : Token) : Iter σ :=
  ⟨p, State.ProcessToken t, cfg, cur, fw, ct, tw⟩

/-- Iterator whose current state is emitting the characters `cs` of a word. -/
def wordIter {σ : Type} (p : List Token) (cfg : σ) (cur : Cursor) (fw : Bool)
    (ct : Option Token) (tw : Nat) (cs : List Char) : Iter σ :=
  ⟨p, State.Word cs, cfg, cur, fw, ct, tw⟩

/-- C5: for a `Break(c)` token: when the lookahead word width fits the
remaining space (or there is no upcoming word) the break is consumed with no
element emitted; when it does not fit and a fallback character is present,
the fallback is emitted as a `PrintedCharacter` and the line finishes
wrapped if the fallback fits, otherwise the line finishes carrying
`ExtraCharacter(c)` with nothing emitted; with no fallback the line finishes
wrapped with nothing emitted. -/
theorem break_token_behavior {σ : Type} (F : FontMetrics)
    (A : HorizontalTextAlignment) (SP : SpaceConfig σ) (p : List Token)
    (cfg : σ) (cur : Cursor) (fw : Bool) (ct : Option Token) (tw : Nat)
    (c : Option Char) :
    (next_word_width F p = none →
      step F A SP (procIter p cfg cur fw ct tw (Token.Break c)) =
        StepOut.cont
          (next_token (procIter p cfg cur fw ct tw (Token.Break c)))) ∧
    (∀ w0 : Nat, next_word_width F p = some w0 → w0 ≤ cur.space →
      step F A SP (procIter p cfg cur fw ct tw (Token.Break c)) =
        StepOut.cont
          (next_token (procIter p cfg cur fw ct tw (Token.Break c)))) ∧
    (∀ (w0 : Nat) (ch : Char), next_word_width F p = some w0 →
      ¬ w0 ≤ cur.space → c = some ch → F.advanceWidth ≤ cur.space →
      step F A SP (procIter p cfg cur fw ct tw (Token.Break c)) =
        StepOut.emit (RenderElement.PrintedCharacter ch)
          (finish_wrapped (procIter p cfg
            (cur.advance_unchecked F.advanceWidth) fw ct tw
            (Token.Break c))) ∧
      (finish_wrapped (procIter p cfg (cur.advance_unchecked F.advanceWidth)
          fw ct tw (Token.Break c))).carried_token =
        some (Token.Break none) ∧
      (finish_wrapped (procIter p cfg (cur.advance_unchecked F.advanceWidth)
          fw ct tw (Token.Break c))).current_token = State.Done) ∧
    (∀ (w0 : Nat) (ch : Char), next_word_width F p = some w0 →
      ¬ w0 ≤ cur.space → c = some ch → ¬ F.advanceWidth ≤ cur.space →
      step F A SP (procIter p cfg cur fw ct tw (Token.Break c)) =
        StepOut.cont (finish (procIter p cfg cur fw ct tw (Token.Break c))
          (Token.ExtraCharacter ch)) ∧
      (finish (procIter p cfg cur fw ct tw (Token.Break c))
          (Token.ExtraCharacter ch)).carried_token =
        some (Token.ExtraCharacter ch)) ∧
    (∀ w0 : Nat, next_word_width F p = some w0 → ¬ w0 ≤ cur.space →
      c = none →
      step F A SP (procIter p cfg cur fw ct tw (Token.Break c)) =
        StepOut.cont
          (finish_wrapped (procIter p cfg cur fw ct tw (Token.Break c))) ∧
      (finish_wrapped
          (procIter p cfg cur fw ct tw (Token.Break c))).carried_token =
        some (Token.Break none)) := by
  refine ⟨?_, ?_, ?_, ?_, ?_⟩
  · intro hww
    simp [step, procIter, process_token, hww]
  · intro w0 hww hfit
    have hb : cur.fits_in_line w0 = true := by
      simp [Cursor.fits_in_line, hfit]
    simp [step, procIter, process_token, hww, hb]
  · intro w0 ch hww hnofit hc hadv
    subst hc
    have hb : cur.fits_in_line w0 = false := by
      simp [Cursor.fits_in_line, hnofit]
    have hb2 : cur.fits_in_line F.advanceWidth = true := by
      simp [Cursor.fits_in_line, hadv]
    refine ⟨?_, rfl, rfl⟩
    simp [step, procIter, process_token, hww, hb, Cursor.advance, hb2,
      Cursor.advance_unchecked]
  · intro w0 ch hww hnofit hc hadv
    subst hc
    have hb : cur.fits_in_line w0 = false := by
      simp [Cursor.fits_in_line, hnofit]
    have hb2 : cur.fits_in_line F.advanceWidth = false := by
      simp [Cursor.fits_in_line, hadv]
    refine ⟨?_, rfl⟩
    simp [step, procIter, process_token, hww, hb, Cursor.advance, hb2]
  · intro w0 hww hnofit hc
    subst hc
    have hb : cur.fits_in_line w0 = false := by
      simp [Cursor.fits_in_line, hnofit]
    refine ⟨?_, rfl⟩
    simp [step, procIter, process_token, hww, hb]

/-- C7: for a `Tab` token with a positive tab width, the distance returned by
`next_tab_width` is positive, at most one tab width, and lands exactly on the
next multiple of the tab width; when that distance fits, the cursor advances
by it and the element `Space(distance, 0)` is emitted with the token
consumed; when it does not fit, the element `Space(remaining, 0)` covering
exactly the remaining space of the line is emitted and the line finishes
wrapped. -/
theorem tab_token_behavior {σ : Type} (F : FontMetrics)
    (A : HorizontalTextAlignment) (SP : SpaceConfig σ) (p : List Token)
    (cfg : σ) (cur : Cursor) (fw : Bool) (ct : Option Token) (tw : Nat)
    (htw : 0 < tw) :
    (0 < next_tab_width cur.x_in_line tw) ∧
    (next_tab_width cur.x_in_line tw ≤ tw) ∧
    ((cur.position + next_tab_width cur.x_in_line tw) % tw = 0) ∧
    (next_tab_width cur.x_in_line tw ≤ cur.space →
      step F A SP (procIter p cfg cur fw ct tw Token.Tab) =
        StepOut.emit
          (RenderElement.Space (next_tab_width cur.x_in_line tw) 0)
          (next_token (procIter p cfg
            (cur.advance_unchecked (next_tab_width cur.x_in_line tw)) fw ct
            tw Token.Tab))) ∧
    (¬ next_tab_width cur.x_in_line tw ≤ cur.space →
      step F A SP (procIter p cfg cur fw ct tw Token.Tab) =
        StepOut.emit (RenderElement.Space cur.space 0)
          (finish_wrapped (procIter p cfg cur fw ct tw Token.Tab)) ∧
      (finish_wrapped
          (procIter p cfg cur fw ct tw Token.Tab)).carried_token =
        some (Token.Break none) ∧
      (finish_wrapped
          (procIter p cfg cur fw ct tw Token.Tab)).current_token =
        State.Done) := by
  have h1 := Nat.div_add_mod cur.position tw
  have h2 : cur.position % tw < tw := Nat.mod_lt _ htw
  have hd : next_tab_width cur.x_in_line tw = tw - cur.position % tw := by
    unfold next_tab_width Cursor.x_in_line
    have h3 : (cur.position / tw + 1) * tw = tw * (cur.position / tw) + tw :=
      by ring
    rw [h3]
    generalize tw * (cur.position / tw) = M at h1 ⊢
    omega
  refine ⟨?_, ?_, ?_, ?_, ?_⟩
  · rw [hd]; omega
  · rw [hd]; omega
  · rw [hd]
    have h4 : cur.position + (tw - cur.position % tw) =
        tw * (cur.position / tw + 1) := by
      have h5 : tw * (cur.position / tw + 1) =
          tw * (cur.position / tw) + tw := by ring
      rw [h5]
      generalize tw * (cur.position / tw) = M at h1 ⊢
      omega
    rw [h4, Nat.mul_mod_right]
  · intro hfit
    have hb : cur.fits_in_line (next_tab_width cur.x_in_line tw) = true := by
      simp [Cursor.fits_in_line, hfit]
    simp [step, procIter, process_token, Cursor.advance, hb,
      Cursor.advance_unchecked]
  · intro hnofit
    have hb : cur.fits_in_line (next_tab_width cur.x_in_line tw) = false := by
      simp [Cursor.fits_in_line, hnofit]
    refine ⟨?_, rfl, rfl⟩
    simp [step, procIter, process_token, Cursor.advance, hb]

theorem cwss_go_le (peek : Nat → Nat) (avail : Nat) :
    ∀ (b k : Nat), count_widest_space_seq_go peek avail k b ≤ k + b := by
  intro b
  induction b with
  | zero => intro k; simp [count_widest_space_seq_go]
  | succ b ih =>
      intro k
      unfold count_widest_space_seq_go
      split
      · have := ih (k + 1)
        omega
      · omega

theorem cwss_go_lt (peek : Nat → Nat) (avail : Nat) :
    ∀ (b k : Nat), (∀ j, 0 < j → j ≤ k → peek j < avail) →
      ∀ j, 0 < j → j ≤ count_widest_space_seq_go peek avail k b →
        peek j < avail := by
  intro b
  induction b with
  | zero =>
      intro k hk j hj1 hj2
      exact hk j hj1 (by simpa [count_widest_space_seq_go] using hj2)
  | succ b ih =>
      intro k hk j hj1 hj2
      by_cases hp : peek (k + 1) < avail
      · refine ih (k + 1) ?_ j hj1 ?_
        · intro i hi1 hi2
          rcases Nat.lt_or_ge i (k + 1) with h | h
          · exact hk i hi1 (by omega)
          · have hik : i = k + 1 := by omega
            rw [hik]
            exact hp
        · simpa [count_widest_space_seq_go, hp] using hj2
      · rw [count_widest_space_seq_go, if_neg hp] at hj2
        exact hk j hj1 hj2

theorem cwss_go_stop (peek : Nat → Nat) (avail : Nat) :
    ∀ (b k : Nat), count_widest_space_seq_go peek avail k b < k + b →
      ¬ peek (count_widest_space_seq_go peek avail k b + 1) < avail := by
  intro b
  induction b with
  | zero =>
      intro k h
      simp [count_widest_space_seq_go] at h
  | succ b ih =>
      intro k h
      by_cases hp : peek (k + 1) < avail
      · have he : count_widest_space_seq_go peek avail k (b + 1) =
            count_widest_space_seq_go peek avail (k + 1) b := by
          simp [count_widest_space_seq_go, hp]
        rw [he] at h ⊢
        exact ih (k + 1) (by omega)
      · have he : count_widest_space_seq_go peek avail k (b + 1) = k := by
          simp [count_widest_space_seq_go, hp]
        rw [he]
        exact hp

theorem count_widest_le (peek : Nat → Nat) (avail n : Nat) :
    count_widest_space_seq peek avail n ≤ n := by
  have h := cwss_go_le peek avail n 0
  simpa [count_widest_space_seq] using h

theorem count_widest_lt (peek : Nat → Nat) (avail n : Nat) :
    ∀ j, 0 < j → j ≤ count_widest_space_seq peek avail n →
      peek j < avail := by
  intro j hj1 hj2
  refine cwss_go_lt peek avail n 0 ?_ j hj1 hj2
  intro i hi1 hi2
  exact absurd hi2 (by omega)

theorem count_widest_stop (peek : Nat → Nat) (avail n : Nat) :
    count_widest_space_seq peek avail n < n →
    ¬ peek (count_widest_space_seq peek avail n + 1) < avail := by
  intro h
  exact cwss_go_stop peek avail n 0 (by simpa [count_widest_space_seq] using h)

theorem whitespace_render_core_cases {σ : Type} (SP : SpaceConfig σ)
    (it : Iter σ) (n : Nat) :
    ∀ k, k = count_widest_space_seq (SP.peek_next_width it.config)
        it.cursor.space n →
      (0 < k → n - k = 0 → whitespace_render_core SP it n =
        StepOut.emit (RenderElement.Space (SP.consume it.config k).1 k)
          (next_token
            { it with
                config := (SP.consume it.config k).2,
                cursor := it.cursor.advance_unchecked
                  (SP.consume it.config k).1 })) ∧
      (0 < k → 0 < n - k → whitespace_render_core SP it n =
        StepOut.emit (RenderElement.Space (SP.consume it.config k).1 k)
          (finish
            { it with
                config := (SP.consume it.config k).2,
                cursor := it.cursor.advance_unchecked
                  (SP.consume it.config k).1 }
            (Token.Whitespace (n - k)))) ∧
      (k = 0 → 1 < n → whitespace_render_core SP it n =
        StepOut.cont (finish it (Token.Whitespace (n - 1)))) ∧
      (k = 0 → ¬ 1 < n → whitespace_render_core SP it n =
        StepOut.cont (finish_wrapped it)) := by
  intro k hk
  refine ⟨?_, ?_, ?_, ?_⟩
  · intro h0 hnk
    unfold whitespace_render_core
    rw [← hk, if_pos h0]
    dsimp only
    rw [if_pos hnk]
  · intro h0 hnk
    unfold whitespace_render_core
    rw [← hk, if_pos h0]
    dsimp only
    rw [if_neg (by omega)]
  · intro h0 hn
    unfold whitespace_render_core
    rw [← hk, if_neg (by omega), if_pos hn]
  · intro h0 hn
    unfold whitespace_render_core
    rw [← hk, if_neg (by omega), if_neg hn]

/-- C6 (amended): in the rendering path of a whitespace run of `n` spaces,
the linear forward scan over `peek_next_width` stops at the first prefix
whose peeked width fails to be strictly below the cursor's remaining space,
so a run of spaces whose total width exactly equals the remaining space does
not count as fitting (one space is held back).  The resulting count `k`
satisfies `k ≤ n`, every nonempty prefix up to `k` peeks strictly below the
remaining space, and a scan stopping short of `n` did so because the next
prefix does not peek strictly below it (for a monotone configuration such as
the uniform one this makes `k` the largest such count).  For `k > 0` the
width committed via `consume` is emitted as `Space(width, k)`, and the
unrendered remainder is carried as `Whitespace(n − k)` when any remains
(the token is consumed when `k = n`); for `k = 0` nothing is emitted and the
line finishes, carrying `Whitespace(n − 1)` when `n > 1` and wrapping
otherwise. -/
theorem whitespace_render_count {σ : Type} (SP : SpaceConfig σ)
    (it : Iter σ) (n : Nat) :
    (count_widest_space_seq (SP.peek_next_width it.config) it.cursor.space n
      ≤ n) ∧
    (∀ j, 0 < j →
      j ≤ count_widest_space_seq (SP.peek_next_width it.config)
        it.cursor.space n →
      SP.peek_next_width it.config j < it.cursor.space) ∧
    (count_widest_space_seq (SP.peek_next_width it.config) it.cursor.space n
        < n →
      ¬ SP.peek_next_width it.config
          (count_widest_space_seq (SP.peek_next_width it.config)
            it.cursor.space n + 1) < it.cursor.space) ∧
    (∀ k, k = count_widest_space_seq (SP.peek_next_width it.config)
        it.cursor.space n →
      (0 < k → n - k = 0 → whitespace_render_core SP it n =
        StepOut.emit (RenderElement.Space (SP.consume it.config k).1 k)
          (next_token
            { it with
                config := (SP.consume it.config k).2,
                cursor := it.cursor.advance_unchecked
                  (SP.consume it.config k).1 })) ∧
      (0 < k → 0 < n - k → whitespace_render_core SP it n =
        StepOut.emit (RenderElement.Space (SP.consume it.config k).1 k)
          (finish
            { it with
                config := (SP.consume it.config k).2,
                cursor := it.cursor.advance_unchecked
                  (SP.consume it.config k).1 }
            (Token.Whitespace (n - k))) ∧
        (finish
            { it with
                config := (SP.consume it.config k).2,
                cursor := it.cursor.advance_unchecked
                  (SP.consume it.config k).1 }
            (Token.Whitespace (n - k))).carried_token =
          some (Token.Whitespace (n - k))) ∧
      (k = 0 → 1 < n → whitespace_render_core SP it n =
        StepOut.cont (finish it (Token.Whitespace (n - 1)))) ∧
      (k = 0 → ¬ 1 < n → whitespace_render_core SP it n =
        StepOut.cont (finish_wrapped it))) := by
  refine ⟨count_widest_le _ _ _, count_widest_lt _ _ _, count_widest_stop _ _ _,
    ?_⟩
  intro k hk
  have h := whitespace_render_core_cases SP it n k hk
  exact ⟨h.1, fun h0 hnk => ⟨(h.2.1 h0 hnk), rfl⟩, h.2.2.1, h.2.2.2⟩

/-- C3 (amended): the force-placement condition is the iterator's first-word
flag, not emptiness of the line: the flag is set at construction and cleared
by the first `Word` token (or by a rendered leading whitespace run), but a
tab or extra character leaves it set even though it occupies line space.
With the flag set, a `Word` token switches to per-character emission with no
whole-word measurement; each character advance is bounds-checked, a fitting
character is emitted and a character that does not fit on a line with
content causes the remaining suffix of the word (that character included) to
be carried as a `Word` token — so an over-wide word is split, not drawn past
the line edge.  With the flag clear, the whole word is measured first and a
word that does not fit finishes the line deferring the entire `Word` token
unconsumed as the carried token. -/
theorem word_token_first_flag {σ : Type} (F : FontMetrics)
    (A : HorizontalTextAlignment) (SP : SpaceConfig σ) (p : List Token)
    (cfg : σ) (cur : Cursor) (ct : Option Token) (tw : Nat)
    (w : List Char) :
    (step F A SP (procIter p cfg cur true ct tw (Token.Word w)) =
      StepOut.cont (wordIter p cfg cur false ct tw w)) ∧
    (str_width_nocr F w ≤ cur.space →
      step F A SP (procIter p cfg cur false ct tw (Token.Word w)) =
        StepOut.cont (wordIter p cfg cur false ct tw w)) ∧
    (¬ str_width_nocr F w ≤ cur.space →
      step F A SP (procIter p cfg cur false ct tw (Token.Word w)) =
        StepOut.cont (finish (procIter p cfg cur false ct tw (Token.Word w))
          (Token.Word w)) ∧
      (finish (procIter p cfg cur false ct tw (Token.Word w))
          (Token.Word w)).carried_token = some (Token.Word w)) ∧
    (∀ (fw : Bool) (c : Char) (rest : List Char), c ≠ SPEC_CHAR_NBSP →
      F.advanceWidth ≤ cur.space →
      step F A SP (wordIter p cfg cur fw ct tw (c :: rest)) =
        StepOut.emit (RenderElement.PrintedCharacter c)
          (wordIter p cfg (cur.advance_unchecked F.advanceWidth) fw ct tw
            rest)) ∧
    (∀ (fw : Bool) (c : Char) (rest : List Char), c ≠ SPEC_CHAR_NBSP →
      ¬ F.advanceWidth ≤ cur.space → 0 < cur.position →
      step F A SP (wordIter p cfg cur fw ct tw (c :: rest)) =
        StepOut.cont (finish (wordIter p cfg cur fw ct tw (c :: rest))
          (Token.Word (c :: rest))) ∧
      (finish (wordIter p cfg cur fw ct tw (c :: rest))
          (Token.Word (c :: rest))).carried_token =
        some (Token.Word (c :: rest))) := by
  refine ⟨?_, ?_, ?_, ?_, ?_⟩
  · simp [step, procIter, wordIter, process_token]
  · intro hfit
    have hb : cur.fits_in_line (str_width_nocr F w) = true := by
      simp [Cursor.fits_in_line, hfit]
    simp [step, procIter, wordIter, process_token, hb]
  · intro hnofit
    have hb : cur.fits_in_line (str_width_nocr F w) = false := by
      simp [Cursor.fits_in_line, hnofit]
    refine ⟨?_, rfl⟩
    simp [step, procIter, process_token, hb]
  · intro fw c rest hc hfit
    have hb : cur.fits_in_line F.advanceWidth = true := by
      simp [Cursor.fits_in_line, hfit]
    simp [step, wordIter, hc, Cursor.advance, hb, Cursor.advance_unchecked]
  · intro fw c rest hc hnofit hx
    have hb : cur.fits_in_line F.advanceWidth = false := by
      simp [Cursor.fits_in_line, hnofit]
    refine ⟨?_, rfl⟩
    simp [step, wordIter, hc, Cursor.advance, hb, word_fail,
      Cursor.x_in_line, hx]

/-- C4 (amended): for a `Whitespace(n)` token that does not open the line,
when the lookahead word width combined with the whole run's peeked width
does not fit the remaining space: if the policy drops trailing spaces the
line finishes immediately carrying the wrap marker `Break(None)` with no
space rendered; if the policy renders trailing spaces, the renderer is run
with the reduced count `n − 1` (one space reserved to force the break), so
at most `n − 1` spaces are rendered.  In that reduced run with scan result
`k`: when `0 < k < n − 1` the line finishes carrying
`Whitespace(n − 1 − k)`; when `k = 0` the line finishes carrying
`Whitespace(n − 2)` if `n − 1 > 1` and the wrap marker otherwise; but when
all `n − 1` spaces fit (`k = n − 1 > 0`) the line does **not** finish — the
whitespace token is simply consumed, the carried-token slot is untouched,
and processing continues (so the carried token of the finished line may end
up being the deferred `Word` itself rather than a `Whitespace` or
`Break(None)`). -/
theorem whitespace_wrap_behavior {σ : Type} (F : FontMetrics)
    (A : HorizontalTextAlignment) (SP : SpaceConfig σ) (p : List Token)
    (cfg : σ) (cur : Cursor) (ct : Option Token) (tw : Nat) (n w0 : Nat)
    (hww : next_word_width F p = some w0)
    (hnofit : ¬ SP.peek_next_width cfg n + w0 ≤ cur.space) :
    (A.ENDING_SPACES = false →
      step F A SP (procIter p cfg cur false ct tw (Token.Whitespace n)) =
        StepOut.cont (finish_wrapped
          (procIter p cfg cur false ct tw (Token.Whitespace n))) ∧
      (finish_wrapped
          (procIter p cfg cur false ct tw
            (Token.Whitespace n))).carried_token =
        some (Token.Break none)) ∧
    (A.ENDING_SPACES = true →
      step F A SP (procIter p cfg cur false ct tw (Token.Whitespace n)) =
        whitespace_render_core SP
          (procIter p cfg cur false ct tw (Token.Whitespace n)) (n - 1)) ∧
    (count_widest_space_seq (SP.peek_next_width cfg) cur.space (n - 1) ≤
      n - 1) ∧
    (∀ k, k = count_widest_space_seq (SP.peek_next_width cfg) cur.space
        (n - 1) →
      (0 < k → 0 < n - 1 - k →
        whitespace_render_core SP
            (procIter p cfg cur false ct tw (Token.Whitespace n)) (n - 1) =
          StepOut.emit (RenderElement.Space (SP.consume cfg k).1 k)
            (finish
              (procIter p (SP.consume cfg k).2
                (cur.advance_unchecked (SP.consume cfg k).1) false ct tw
                (Token.Whitespace n))
              (Token.Whitespace (n - 1 - k))) ∧
        (finish
            (procIter p (SP.consume cfg k).2
              (cur.advance_unchecked (SP.consume cfg k).1) false ct tw
              (Token.Whitespace n))
            (Token.Whitespace (n - 1 - k))).carried_token =
          some (Token.Whitespace (n - 1 - k))) ∧
      (k = 0 → 1 < n - 1 →
        whitespace_render_core SP
            (procIter p cfg cur false ct tw (Token.Whitespace n)) (n - 1) =
          StepOut.cont
            (finish (procIter p cfg cur false ct tw (Token.Whitespace n))
              (Token.Whitespace (n - 1 - 1)))) ∧
      (k = 0 → ¬ 1 < n - 1 →
        whitespace_render_core SP
            (procIter p cfg cur false ct tw (Token.Whitespace n)) (n - 1) =
          StepOut.cont (finish_wrapped
            (procIter p cfg cur false ct tw (Token.Whitespace n)))) ∧
      (0 < k → n - 1 - k = 0 →
        whitespace_render_core SP
            (procIter p cfg cur false ct tw (Token.Whitespace n)) (n - 1) =
          StepOut.emit (RenderElement.Space (SP.consume cfg k).1 k)
            (next_token
              (procIter p (SP.consume cfg k).2
                (cur.advance_unchecked (SP.consume cfg k).1) false ct tw
                (Token.Whitespace n))) ∧
        (next_token
            (procIter p (SP.consume cfg k).2
              (cur.advance_unchecked (SP.consume cfg k).1) false ct tw
              (Token.Whitespace n))).carried_token = ct)) := by
  have hfits : cur.fits_in_line (SP.peek_next_width cfg n + w0) = false := by
    simp [Cursor.fits_in_line, hnofit]
  refine ⟨?_, ?_, count_widest_le _ _ _, ?_⟩
  · intro hE
    refine ⟨?_, rfl⟩
    simp [step, procIter, process_token, hww, hfits, hE]
  · intro hE
    simp [step, procIter, process_token, hww, hfits, hE, whitespace_render]
  · intro k hk
    have h := whitespace_render_core_cases SP
      (procIter p cfg cur false ct tw (Token.Whitespace n)) (n - 1) k hk
    refine ⟨fun h0 hnk => ⟨h.2.1 h0 hnk, rfl⟩, h.2.2.1, h.2.2.2, ?_⟩
    intro h0 hnk
    refine ⟨h.1 h0 hnk, ?_⟩
    unfold next_token
    cases p <;> rfl

/-- Token that is not a cursor-backward escape. -/
def tokenNoBack : Token → Bool
  | Token.EscapeSequence (AnsiSeq.cursorBackward _) => false
  | _ => true

/-- State whose pending token is not a cursor-backward escape. -/
def stateNoBack : State → Bool
  | State.ProcessToken t => tokenNoBack t
  | _ => true

/-- Iterator containing no cursor-backward escape (neither pending nor in the
remaining token stream). -/
def iterNoBack {σ : Type} (it : Iter σ) : Bool :=
  it.parser.all tokenNoBack && stateNoBack it.current_token

/-- The peek/consume consistency contract of the spec: the width returned by
`consume` is exactly the width `peek_next_width` reported for the same count
with no intervening state change. -/
def consumeMatchesPeek {σ : Type} (SP : SpaceConfig σ) : Prop :=
  ∀ (s : σ) (n : Nat), (SP.consume s n).1 = SP.peek_next_width s n

/-- Width bookkeeping of one step with respect to the starting iterator: an
emitted element fits in the remaining space, and afterwards either the line
is finished or the remaining space shrank by exactly the emitted width; a
silent continuation either keeps the remaining space or finishes the line;
the no-cursor-backward property is preserved. -/
def stepWidthOk {σ : Type} (F : FontMetrics) :
    StepOut σ → Iter σ → Prop
  | StepOut.halt, _ => True
  | StepOut.cont it2, it => iterNoBack it2 = true ∧
      (it2.cursor.space = it.cursor.space ∨
        it2.current_token = State.Done)
  | StepOut.emit e it2, it => iterNoBack it2 = true ∧
      elemWidth F e ≤ it.cursor.space ∧
      (it2.current_token = State.Done ∨
        it2.cursor.space + elemWidth F e = it.cursor.space)

theorem noBack_all_tokens {σ : Type} (it : Iter σ) (h : iterNoBack it = true) :
    it.parser.all tokenNoBack = true := by
  simp only [iterNoBack, Bool.and_eq_true] at h
  exact h.1

theorem noBack_next_token {σ : Type} (it : Iter σ)
    (h : it.parser.all tokenNoBack = true) :
    iterNoBack (next_token it) = true := by
  unfold next_token iterNoBack
  cases hp : it.parser with
  | nil => simp [stateNoBack]
  | cons t ts =>
      rw [hp] at h
      simp only [List.all_cons, Bool.and_eq_true] at h
      simp [stateNoBack, h.1, h.2]

theorem noBack_finish {σ : Type} (it : Iter σ) (t : Token)
    (h : it.parser.all tokenNoBack = true) :
    iterNoBack (finish it t) = true := by
  unfold iterNoBack
  cases t <;> simp [finish, stateNoBack, h]

theorem noBack_finish_end {σ : Type} (it : Iter σ)
    (h : it.parser.all tokenNoBack = true) :
    iterNoBack (finish_end_of_string it) = true := by
  simp [finish_end_of_string, iterNoBack, stateNoBack, h]

theorem next_token_cursor {σ : Type} (it : Iter σ) :
    (next_token it).cursor = it.cursor := by
  unfold next_token
  cases it.parser <;> rfl

theorem finish_done {σ : Type} (it : Iter σ) (t : Token) :
    (finish it t).current_token = State.Done := by
  cases t <;> rfl

theorem advance_some {c cur2 : Cursor} {w : Nat}
    (h : Cursor.advance c w = some cur2) :
    w ≤ c.space ∧ cur2.space + w = c.space := by
  unfold Cursor.advance at h
  split at h
  · rename_i hf
    have hw : w ≤ c.space := by simpa [Cursor.fits_in_line] using hf
    simp only [Option.some.injEq] at h
    subst h
    refine ⟨hw, ?_⟩
    simp only [Cursor.space] at hw ⊢
    omega
  · simp at h

theorem space_advance_unchecked (c : Cursor) (w : Nat) (h : w ≤ c.space) :
    (c.advance_unchecked w).space + w = c.space := by
  simp only [Cursor.advance_unchecked, Cursor.space] at h ⊢
  omega

theorem whitespace_render_core_width {σ : Type} (F : FontMetrics)
    (SP : SpaceConfig σ) (it it0 : Iter σ) (n : Nat)
    (hc : consumeMatchesPeek SP)
    (hp : it.parser = it0.parser) (hcur : it.cursor = it0.cursor)
    (hnb : it0.parser.all tokenNoBack = true) :
    stepWidthOk F (whitespace_render_core SP it n) it0 := by
  have hall : it.parser.all tokenNoBack = true := by rw [hp]; exact hnb
  unfold whitespace_render_core
  split
  · rename_i hks
    dsimp only
    set k := count_widest_space_seq (SP.peek_next_width it.config)
      it.cursor.space n with hk
    have hlt : SP.peek_next_width it.config k < it.cursor.space :=
      count_widest_lt _ _ _ k hks (le_refl k)
    have hwle : (SP.consume it.config k).1 ≤ it0.cursor.space := by
      rw [hc, ← hcur]
      omega
    have hsp : (it.cursor.advance_unchecked (SP.consume it.config k).1).space
        + (SP.consume it.config k).1 = it0.cursor.space := by
      rw [← hcur]
      refine space_advance_unchecked _ _ ?_
      rw [hc]
      omega
    split
    · simp only [stepWidthOk, elemWidth]
      refine ⟨noBack_next_token _ hall, hwle, Or.inr ?_⟩
      rw [next_token_cursor]
      exact hsp
    · simp only [stepWidthOk, elemWidth]
      exact ⟨noBack_finish _ _ hall, hwle, Or.inl (finish_done _ _)⟩
  · split
    · simp only [stepWidthOk]
      exact ⟨noBack_finish _ _ hall, Or.inr (finish_done _ _)⟩
    · simp only [stepWidthOk, finish_wrapped]
      exact ⟨noBack_finish _ _ hall, Or.inr (finish_done _ _)⟩

theorem iterNoBack_set_cursor {σ : Type} (it : Iter σ) (c : Cursor) :
    iterNoBack { it with cursor := c } = iterNoBack it := rfl

theorem step_width {σ : Type} (F : FontMetrics)
    (A : HorizontalTextAlignment) (SP : SpaceConfig σ) (it : Iter σ)
    (hc : consumeMatchesPeek SP) (hnb : iterNoBack it = true) :
    stepWidthOk F (step F A SP it) it := by
  obtain ⟨p, st, cfg, cur, fw, ct, tw⟩ := it
  have hall : p.all tokenNoBack = true :=
    noBack_all_tokens _ hnb
  cases st with
  | Done => simp [step, stepWidthOk]
  | Word chars =>
      cases chars with
      | nil =>
          simp only [step, stepWidthOk]
          exact ⟨noBack_next_token _ hall, Or.inl (by rw [next_token_cursor])⟩
      | cons c rest =>
          simp only [step]
          split
          · cases hadv : cur.advance (SP.peek_next_width cfg 1) with
            | some cur2 =>
                obtain ⟨hle, hsp⟩ := advance_some hadv
                simp only [hadv, stepWidthOk, elemWidth]
                refine ⟨?_, hle, Or.inr hsp⟩
                simp [iterNoBack, stateNoBack, hall]
            | none =>
                simp only [hadv]
                unfold word_fail
                split
                · simp only [stepWidthOk]
                  exact ⟨noBack_finish _ _ hall, Or.inr (finish_done _ _)⟩
                · simp only [stepWidthOk]
                  exact ⟨noBack_finish_end _ hall, Or.inr rfl⟩
          · cases hadv : cur.advance F.advanceWidth with
            | some cur2 =>
                obtain ⟨hle, hsp⟩ := advance_some hadv
                simp only [hadv, stepWidthOk, elemWidth]
                refine ⟨?_, hle, Or.inr hsp⟩
                simp [iterNoBack, stateNoBack, hall]
            | none =>
                simp only [hadv]
                unfold word_fail
                split
                · simp only [stepWidthOk]
                  exact ⟨noBack_finish _ _ hall, Or.inr (finish_done _ _)⟩
                · simp only [stepWidthOk]
                  exact ⟨noBack_finish_end _ hall, Or.inr rfl⟩
  | ProcessToken tok =>
      cases tok with
      | Whitespace n =>
          simp only [step, process_token]
          split
          · split
            · exact whitespace_render_core_width F SP _ _ _ hc rfl rfl hall
            · simp only [stepWidthOk]
              exact ⟨noBack_next_token _ hall,
                Or.inl (by rw [next_token_cursor])⟩
          · cases hww : next_word_width F p with
            | some w0 =>
                dsimp only
                split
                · exact whitespace_render_core_width F SP _ _ _ hc rfl rfl
                    hall
                · split
                  · simp only [stepWidthOk, finish_wrapped]
                    exact ⟨noBack_finish _ _ hall,
                      Or.inr (finish_done _ _)⟩
                  · simp only [stepWidthOk]
                    exact ⟨noBack_next_token _ hall,
                      Or.inl (by rw [next_token_cursor])⟩
            | none =>
                dsimp only
                split
                · exact whitespace_render_core_width F SP _ _ _ hc rfl rfl
                    hall
                · simp only [stepWidthOk]
                  exact ⟨noBack_next_token _ hall,
                    Or.inl (by rw [next_token_cursor])⟩
      | Break c =>
          simp only [step, process_token]
          split
          · simp only [stepWidthOk]
            exact ⟨noBack_next_token _ hall,
              Or.inl (by rw [next_token_cursor])⟩
          · cases c with
            | some ch =>
                cases hadv : cur.advance F.advanceWidth with
                | some cur2 =>
                    obtain ⟨hle, hsp⟩ := advance_some hadv
                    simp only [hadv, stepWidthOk, elemWidth, finish_wrapped]
                    exact ⟨noBack_finish _ _ hall, hle,
                      Or.inl (finish_done _ _)⟩
                | none =>
                    simp only [hadv, stepWidthOk]
                    exact ⟨noBack_finish _ _ hall,
                      Or.inr (finish_done _ _)⟩
            | none =>
                simp only [stepWidthOk, finish_wrapped]
                exact ⟨noBack_finish _ _ hall, Or.inr (finish_done _ _)⟩
      | ExtraCharacter ch =>
          simp only [step, process_token]
          cases hadv : cur.advance F.advanceWidth with
          | some cur2 =>
              obtain ⟨hle, hsp⟩ := advance_some hadv
              simp only [hadv, stepWidthOk, elemWidth]
              refine ⟨noBack_next_token _ hall, hle, Or.inr ?_⟩
              rw [next_token_cursor]
              exact hsp
          | none =>
              simp only [hadv, stepWidthOk]
              exact ⟨noBack_finish_end _ hall, Or.inr rfl⟩
      | Word w =>
          simp only [step, process_token]
          split
          · simp only [stepWidthOk]
            refine ⟨?_, by simp⟩
            simp [iterNoBack, stateNoBack, hall]
          · split
            · simp only [stepWidthOk]
              refine ⟨?_, by simp⟩
              simp [iterNoBack, stateNoBack, hall]
            · simp only [stepWidthOk]
              exact ⟨noBack_finish _ _ hall, Or.inr (finish_done _ _)⟩
      | Tab =>
          simp only [step, process_token]
          cases hadv : cur.advance (next_tab_width cur.x_in_line tw) with
          | some cur2 =>
              obtain ⟨hle, hsp⟩ := advance_some hadv
              simp only [hadv, stepWidthOk, elemWidth]
              refine ⟨noBack_next_token _ hall, hle, Or.inr ?_⟩
              rw [next_token_cursor]
              exact hsp
          | none =>
              simp only [hadv, stepWidthOk, elemWidth, finish_wrapped]
              exact ⟨noBack_finish _ _ hall, le_refl _,
                Or.inl (finish_done _ _)⟩
      | EscapeSequence seq =>
          have ht : tokenNoBack (Token.EscapeSequence seq) = true := by
            simp only [iterNoBack, Bool.and_eq_true, stateNoBack] at hnb
            exact hnb.2
          simp only [step, process_token]
          cases seq with
          | setGraphicsMode s =>
              cases s with
              | none =>
                  simp only [stepWidthOk]
                  exact ⟨noBack_next_token _ hall,
                    Or.inl (by rw [next_token_cursor])⟩
              | some code =>
                  simp only [stepWidthOk, elemWidth]
                  refine ⟨noBack_next_token _ hall, Nat.zero_le _,
                    Or.inr ?_⟩
                  simp [next_token_cursor]
          | cursorForward m =>
              dsimp only
              cases hadv : (next_token
                  (⟨p, State.ProcessToken (Token.EscapeSequence
                    (AnsiSeq.cursorForward m)), cfg, cur, fw, ct, tw⟩ :
                    Iter σ)).cursor.advance
                  (m * F.charWidth + F.charSpacing) with
              | some cur2 =>
                  simp only [hadv, stepWidthOk, elemWidth]
                  rw [next_token_cursor] at hadv
                  obtain ⟨hle, hsp⟩ := advance_some hadv
                  refine ⟨?_, hle, Or.inr hsp⟩
                  rw [iterNoBack_set_cursor]
                  exact noBack_next_token _ hall
              | none =>
                  simp only [hadv, stepWidthOk, elemWidth,
                    next_token_cursor]
                  refine ⟨?_, le_refl _, Or.inr ?_⟩
                  · rw [iterNoBack_set_cursor]
                    exact noBack_next_token _ hall
                  · simp only [Cursor.advance_unchecked, Cursor.space]
                    omega
          | cursorBackward m =>
              simp [tokenNoBack] at ht
          | other =>
              simp only [stepWidthOk]
              exact ⟨noBack_next_token _ hall,
                Or.inl (by rw [next_token_cursor])⟩
      | NewLine =>
          simp only [step, process_token, stepWidthOk]
          exact ⟨noBack_finish _ _ hall, Or.inr (finish_done _ _)⟩
      | CarriageReturn =>
          simp only [step, process_token, stepWidthOk]
          exact ⟨noBack_finish _ _ hall, Or.inr (finish_done _ _)⟩

theorem runFuel_done_nil {σ : Type} (F : FontMetrics)
    (A : HorizontalTextAlignment) (SP : SpaceConfig σ) (fuel : Nat)
    (it : Iter σ) (l : List RenderElement) (itf : Iter σ)
    (hdone : it.current_token = State.Done)
    (h : runFuel F A SP fuel it = some (l, itf)) : l = [] := by
  cases fuel with
  | zero => simp [runFuel] at h
  | succ fuel =>
      have hstep : step F A SP it = StepOut.halt := by
        simp [step, hdone]
      unfold runFuel at h
      rw [hstep] at h
      simp only [Option.some.injEq, Prod.mk.injEq] at h
      exact h.1.symm

theorem runFuel_width {σ : Type} (F : FontMetrics)
    (A : HorizontalTextAlignment) (SP : SpaceConfig σ)
    (hc : consumeMatchesPeek SP) :
    ∀ (fuel : Nat) (it : Iter σ) (l : List RenderElement) (itf : Iter σ),
      iterNoBack it = true → runFuel F A SP fuel it = some (l, itf) →
      sumWidths F l ≤ it.cursor.space := by
  intro fuel
  induction fuel with
  | zero => intro it l itf hnb h; simp [runFuel] at h
  | succ fuel ih =>
      intro it l itf hnb h
      have hw := step_width F A SP it hc hnb
      unfold runFuel at h
      cases hstep : step F A SP it with
      | halt =>
          rw [hstep] at h
          simp only [Option.some.injEq, Prod.mk.injEq] at h
          rw [← h.1]
          simp [sumWidths]
      | cont it2 =>
          rw [hstep] at h hw
          simp only [stepWidthOk] at hw
          obtain ⟨hnb2, hsp | hdone⟩ := hw
          · have h2 := ih it2 l itf hnb2 h
            rw [hsp] at h2
            exact h2
          · have hl := runFuel_done_nil F A SP fuel it2 l itf hdone h
            subst hl
            simp [sumWidths]
      | emit e it2 =>
          rw [hstep] at h
          dsimp only at h
          rw [hstep] at hw
          simp only [stepWidthOk] at hw
          obtain ⟨hnb2, hle, hrest⟩ := hw
          cases hr : runFuel F A SP fuel it2 with
          | none => rw [hr] at h; simp at h
          | some pr =>
              obtain ⟨l2, itf2⟩ := pr
              rw [hr] at h
              simp only [Option.some.injEq, Prod.mk.injEq] at h
              obtain ⟨hl, hitf⟩ := h
              rcases hrest with hdone | hsp
              · have hl2 := runFuel_done_nil F A SP fuel it2 l2 itf2 hdone hr
                subst hl2
                rw [← hl]
                simpa [sumWidths] using hle
              · have h2 := ih it2 l2 itf2 hnb2 hr
                rw [← hl]
                simp only [sumWidths, List.map_cons, List.sum_cons]
                simp only [sumWidths] at h2
                omega

/-- C2 (amended): for every line run of the iterator over a token stream
containing no ansi cursor-backward escape, with any space configuration
satisfying the peek/consume consistency contract, the sum of the widths of
all emitted elements (space widths plus per-character advance widths) is at
most the remaining space of the cursor at the start of the run, and hence at
most the line width.  No exception clause is needed: forced placement of a
first word is advance-checked per character and is split, not overflowed.
With cursor-backward escapes the bound fails (widths can be re-used), which
is what forces the amendment. -/
theorem lineIter_width_bound {σ : Type} (F : FontMetrics)
    (A : HorizontalTextAlignment) (SP : SpaceConfig σ) (fuel : Nat)
    (it : Iter σ) (l : List RenderElement) (itf : Iter σ)
    (hc : consumeMatchesPeek SP) (hnb : iterNoBack it = true)
    (h : runFuel F A SP fuel it = some (l, itf)) :
    sumWidths F l ≤ it.cursor.space ∧
    sumWidths F l ≤ it.cursor.width := by
  have h1 := runFuel_width F A SP hc fuel it l itf hnb h
  refine ⟨h1, le_trans h1 ?_⟩
  simp only [Cursor.space]
  omega

/-- Demo font: six pixels per character, no spacing (the 6x8 font of the
repository's tests). -/
def F6 : FontMetrics := ⟨6, 0⟩

theorem lineIter_terminates_witness :
    ((runFuel F6 ⟨true, true⟩ uniformConfig
        (iterMeasure (LineElementIterator.new [Token.Word ['h', 'i']]
          (⟨35, 0, 0, 8⟩ : Cursor) (⟨6⟩ : UniformSpaceConfig) none 24) + 1)
        (LineElementIterator.new [Token.Word ['h', 'i']]
          (⟨35, 0, 0, 8⟩ : Cursor) (⟨6⟩ : UniformSpaceConfig) none
          24)).isSome = true) ∧
    (⟨[], State.Done, ⟨6⟩, ⟨35, 12, 0, 8⟩, false, none,
      24⟩ : Iter UniformSpaceConfig).current_token = State.Done := by
  have h := lineIter_terminates F6 ⟨true, true⟩ uniformConfig
    [Token.Word ['h', 'i']] ⟨35, 0, 0, 8⟩ (⟨6⟩ : UniformSpaceConfig) none 24
  exact ⟨h.1, h.2 [RenderElement.PrintedCharacter 'h',
    RenderElement.PrintedCharacter 'i'] _ 10 (by decide)⟩

/-- Recognizer for the carried tokens the whitespace-wrap claim allows. -/
def isWhitespaceOrWrapMarker : Option Token → Bool
  | some (Token.Whitespace _) => true
  | some (Token.Break none) => true
  | _ => false

/-- Iterator of the C2 counterexample: a width-6 line over three
one-character words separated by cursor-backward escapes. -/
def cexC2iter : Iter UniformSpaceConfig :=
  LineElementIterator.new
    [Token.Word ['a'],
     Token.EscapeSequence (AnsiSeq.cursorBackward 1),
     Token.Word ['b'],
     Token.EscapeSequence (AnsiSeq.cursorBackward 1),
     Token.Word ['c']]
    ⟨6, 0, 0, 8⟩ ⟨6⟩ none 24

/-- C2 counterexample: on a line of width 6, the single line run emits three
printed characters of total width 18.  The bound of the claim fails even
when the full width of a single forced first word (6) is discounted on top
of the line width: 18 exceeds 6 + 6.  The overflow is caused by the ansi
cursor-backward escapes, which rewind the cursor so that already-committed
width is reused; it is not a forced first placement. -/
theorem claimC2_cex :
    (runFuel F6 ⟨true, true⟩ uniformConfig 30 cexC2iter).map
        (fun pr => (pr.1, sumWidths F6 pr.1)) =
      some ([RenderElement.PrintedCharacter 'a',
             RenderElement.PrintedCharacter 'b',
             RenderElement.PrintedCharacter 'c'], 18) ∧
    cexC2iter.cursor.width = 6 ∧
    str_width_nocr F6 ['a'] = 6 ∧
    ¬ (18 ≤ 6 + 6) := by decide

/-- Iterator of the C3 counterexample: a tab stop at 6 pixels, then a
two-character word on a 12-pixel line. -/
def cexC3iter : Iter UniformSpaceConfig :=
  LineElementIterator.new [Token.Tab, Token.Word ['a', 'b']]
    ⟨12, 0, 0, 8⟩ ⟨6⟩ none 6

/-- C3 counterexample: after the tab, a `Space(6, 0)` element has been placed
and the line is not empty (6 of 12 pixels used), and the arriving word of
width 12 does not fit the remaining 6 — so the claim requires deferring the
entire `Word` token unconsumed.  Instead the iterator (whose first-word flag
was not cleared by the tab) force-places the first character and carries
only the suffix `Word(['b'])`. -/
theorem claimC3_cex :
    (runFuel F6 ⟨true, true⟩ uniformConfig 20 cexC3iter).map
        (fun pr => (pr.1, pr.2.carried_token)) =
      some ([RenderElement.Space 6 0, RenderElement.PrintedCharacter 'a'],
        some (Token.Word ['b'])) ∧
    ¬ str_width_nocr F6 ['a', 'b'] ≤ 12 - 6 ∧
    some (Token.Word ['b']) ≠ some (Token.Word ['a', 'b']) := by decide

/-- Iterator of the C4 counterexample: a two-space whitespace run on a
non-empty line (6 of 17 pixels used) followed by a one-character word. -/
def cexC4iter : Iter UniformSpaceConfig :=
  ⟨[Token.Word ['b']], State.ProcessToken (Token.Whitespace 2), ⟨6⟩,
    ⟨17, 6, 0, 8⟩, false, none, 24⟩

/-- C4 counterexample: the combined width (two spaces, 12, plus the word, 6)
does not fit the remaining 11 pixels, so the claim's premise holds and it
requires the line to finish carrying a `Whitespace(count)` or `Break(None)`.
The iterator renders the single reserved-count space (n − 1 = 1), which
fits, and then continues the line: the next token is processed and the line
ends carrying the deferred `Word(['b'])` — neither of the two allowed
carried tokens. -/
theorem claimC4_cex :
    next_word_width F6 [Token.Word ['b']] = some 6 ∧
    ¬ uniformConfig.peek_next_width ⟨6⟩ 2 + 6 ≤
        (⟨17, 6, 0, 8⟩ : Cursor).space ∧
    (runFuel F6 ⟨true, true⟩ uniformConfig 20 cexC4iter).map
        (fun pr => (pr.1, pr.2.carried_token)) =
      some ([RenderElement.Space 6 1], some (Token.Word ['b'])) ∧
    isWhitespaceOrWrapMarker (some (Token.Word ['b'])) = false := by decide

/-- Iterator of the C6 counterexample: a two-space whitespace run whose total
width (12) exactly equals the remaining space of the line (18 − 6). -/
def cexC6iter : Iter UniformSpaceConfig :=
  ⟨[], State.ProcessToken (Token.Whitespace 2), ⟨6⟩, ⟨18, 6, 0, 8⟩, false,
    none, 24⟩

/-- C6 counterexample: the two spaces peek to exactly the remaining space
(12 = 12), so by the claim they count as fitting and `Space(12, 2)` should
be emitted with the token consumed.  The scan uses a strict comparison, so
only one space is rendered (`Space(6, 1)`) and `Whitespace(1)` is carried. -/
theorem claimC6_cex :
    uniformConfig.peek_next_width (⟨6⟩ : UniformSpaceConfig) 2 =
      (⟨18, 6, 0, 8⟩ : Cursor).space ∧
    (runFuel F6 ⟨true, true⟩ uniformConfig 20 cexC6iter).map
        (fun pr => (pr.1, pr.2.carried_token)) =
      some ([RenderElement.Space 6 1], some (Token.Whitespace 1)) ∧
    (RenderElement.Space 6 1 ≠ RenderElement.Space 12 2) := by decide

theorem break_token_behavior_witness :
    step F6 ⟨true, true⟩ uniformConfig
        (procIter [Token.Word ['p', 'l', 'e']] (⟨6⟩ : UniformSpaceConfig)
          ⟨35, 18, 0, 8⟩ false none 24 (Token.Break (some '-'))) =
      StepOut.emit (RenderElement.PrintedCharacter '-')
        (finish_wrapped (procIter [Token.Word ['p', 'l', 'e']] ⟨6⟩
          ((⟨35, 18, 0, 8⟩ : Cursor).advance_unchecked F6.advanceWidth) false
          none 24 (Token.Break (some '-')))) :=
  ((break_token_behavior F6 ⟨true, true⟩ uniformConfig
    [Token.Word ['p', 'l', 'e']] ⟨6⟩ ⟨35, 18, 0, 8⟩ false none 24
    (some '-')).2.2.1 18 '-' (by decide) (by decide) rfl (by decide)).1

theorem tab_token_behavior_witness :
    (((⟨30, 8, 0, 8⟩ : Cursor).position +
        next_tab_width (⟨30, 8, 0, 8⟩ : Cursor).x_in_line 6) % 6 = 0) ∧
    step F6 ⟨true, true⟩ uniformConfig
        (procIter [] (⟨6⟩ : UniformSpaceConfig) ⟨30, 8, 0, 8⟩ false none 6
          Token.Tab) =
      StepOut.emit
        (RenderElement.Space
          (next_tab_width (⟨30, 8, 0, 8⟩ : Cursor).x_in_line 6) 0)
        (next_token (procIter [] ⟨6⟩
          ((⟨30, 8, 0, 8⟩ : Cursor).advance_unchecked
            (next_tab_width (⟨30, 8, 0, 8⟩ : Cursor).x_in_line 6)) false none
          6 Token.Tab)) := by
  have h := tab_token_behavior F6 ⟨true, true⟩ uniformConfig []
    (⟨6⟩ : UniformSpaceConfig) ⟨30, 8, 0, 8⟩ false none 6 (by decide)
  exact ⟨h.2.2.1, h.2.2.2.1 (by decide)⟩

theorem next_word_width_spec_witness :
    next_word_width F6 [Token.Word ['a', 'b'],
        Token.EscapeSequence AnsiSeq.other, Token.Break (some '-')] =
      some 18 ∧
    step F6 ⟨true, true⟩ uniformConfig
        (procIter [Token.Word ['a']] (⟨6⟩ : UniformSpaceConfig)
          ⟨35, 0, 0, 8⟩ false none 24 (Token.Break none)) =
      StepOut.cont (next_token (procIter [Token.Word ['a']] ⟨6⟩
        ⟨35, 0, 0, 8⟩ false none 24 (Token.Break none))) := by
  have h := next_word_width_spec UniformSpaceConfig F6
  constructor
  · rw [h.2.1, h.2.2.2.1, h.2.2.1]
    rfl
  · exact h.2.2.2.2.2.2.2.2.2.2 ⟨true, true⟩ uniformConfig _ none 6 rfl
      (by decide) (by decide)

theorem lineIter_new_carried_witness :
    (LineElementIterator.new [Token.Tab] (⟨35, 0, 0, 8⟩ : Cursor)
        (⟨6⟩ : UniformSpaceConfig) (some (Token.Whitespace 3))
        24).current_token = State.ProcessToken (Token.Whitespace 3) ∧
    (LineElementIterator.new [Token.Tab] (⟨35, 0, 0, 8⟩ : Cursor)
        (⟨6⟩ : UniformSpaceConfig) (some (Token.Whitespace 3)) 24).parser =
      [Token.Tab] :=
  (lineIter_new_carried [Token.Tab] ⟨35, 0, 0, 8⟩
    (⟨6⟩ : UniformSpaceConfig) 24).2.2.2.1
    (Token.Whitespace 3) (by decide) (by decide) (by decide)

/-- Elements of the single-line soft-hyphen demo run. -/
def demoElems : List RenderElement :=
  [RenderElement.PrintedCharacter 's', RenderElement.PrintedCharacter 'a',
   RenderElement.PrintedCharacter 'm', RenderElement.PrintedCharacter '-']

/-- Iterator of the soft-hyphen demo: the word before a hyphenated break on
a 35-pixel line (the repository's soft-hyphen test shape). -/
def demoIter : Iter UniformSpaceConfig :=
  LineElementIterator.new
    [Token.Word ['s', 'a', 'm'], Token.Break (some '-'),
     Token.Word ['p', 'l', 'e']] ⟨35, 0, 0, 8⟩ ⟨6⟩ none 24

/-- Final iterator of the soft-hyphen demo run. -/
def demoFinal : Iter UniformSpaceConfig :=
  ⟨[Token.Word ['p', 'l', 'e']], State.Done, ⟨6⟩, ⟨35, 0, 8, 8⟩, false,
    some (Token.Break none), 24⟩

theorem lineIter_width_bound_witness :
    sumWidths F6 demoElems ≤ demoIter.cursor.space ∧
    sumWidths F6 demoElems ≤ demoIter.cursor.width :=
  lineIter_width_bound F6 ⟨true, true⟩ uniformConfig 20 demoIter demoElems
    demoFinal (fun s n => rfl) (by decide) (by decide)

theorem word_token_first_flag_witness :
    step F6 ⟨true, true⟩ uniformConfig
        (procIter [] (⟨6⟩ : UniformSpaceConfig) ⟨12, 6, 0, 8⟩ false none 24
          (Token.Word ['a', 'b'])) =
      StepOut.cont (finish (procIter [] ⟨6⟩ ⟨12, 6, 0, 8⟩ false none 24
        (Token.Word ['a', 'b'])) (Token.Word ['a', 'b'])) ∧
    (finish (procIter [] (⟨6⟩ : UniformSpaceConfig) ⟨12, 6, 0, 8⟩ false none
        24 (Token.Word ['a', 'b']))
      (Token.Word ['a', 'b'])).carried_token =
      some (Token.Word ['a', 'b']) :=
  (word_token_first_flag F6 ⟨true, true⟩ uniformConfig [] ⟨6⟩ ⟨12, 6, 0, 8⟩
    none 24 ['a', 'b']).2.2.1 (by decide)

theorem whitespace_wrap_behavior_witness :
    step F6 ⟨true, true⟩ uniformConfig
        (procIter [Token.Word ['b']] (⟨6⟩ : UniformSpaceConfig)
          ⟨17, 6, 0, 8⟩ false none 24 (Token.Whitespace 2)) =
      whitespace_render_core uniformConfig
        (procIter [Token.Word ['b']] ⟨6⟩ ⟨17, 6, 0, 8⟩ false none 24
          (Token.Whitespace 2)) (2 - 1) :=
  (whitespace_wrap_behavior F6 ⟨true, true⟩ uniformConfig [Token.Word ['b']]
    ⟨6⟩ ⟨17, 6, 0, 8⟩ none 24 2 6 (by decide) (by decide)).2.1 rfl

/-- Iterator of the space-count witness: three spaces on an empty 20-pixel
line. -/
def cntIter : Iter UniformSpaceConfig :=
  ⟨[], State.ProcessToken (Token.Whitespace 3), ⟨6⟩, ⟨20, 0, 0, 8⟩, true,
    none, 24⟩

theorem whitespace_render_count_witness :
    whitespace_render_core uniformConfig cntIter 3 =
      StepOut.emit
        (RenderElement.Space
          (uniformConfig.consume (⟨6⟩ : UniformSpaceConfig) 3).1 3)
        (next_token
          { cntIter with
              config := (uniformConfig.consume (⟨6⟩ : UniformSpaceConfig) 3).2,
              cursor := cntIter.cursor.advance_unchecked
                (uniformConfig.consume (⟨6⟩ : UniformSpaceConfig) 3).1 }) :=
  ((whitespace_render_count uniformConfig cntIter 3).2.2.2 3
    (by decide)).1 (by decide) (by decide)

end EmbeddedText
